import Mathlib

/-!
Verification development for the graze interpreter core
(tokenizer, parser, runtime, value model, stdlib).

Shallow embedding conventions:
 - Rust `i64` values live in `Int`, with the arithmetic bounded as in the
   source: add/sub/mul wrap two's-complement into the signed 64-bit range on
   overflow (`wrap64` — the release behavior; the debug profile panics
   instead, so an overflowing result is never the mathematical one in either
   mode), and the division guard's unconditional panics (`b == 0`,
   `i64::MIN % -1`) are explicit.  The `u64`/`i64` range checks of the
   literal pipeline (`parse::<u64>`, `i64::MAX as u64`) are kept as explicit
   bounds on `Nat`.
 - Rust `f64` is modelled as `Rat` (exact arithmetic); `f64::sqrt` is modelled
   by `Rat.sqrt`, which agrees with the source on the perfect squares the
   claims evaluate.  Character classes (`is_whitespace`, `is_numeric`) are
   modelled by their ASCII restrictions, which agree on every input considered.
 - A stack (Rust `Vec<Value>` pushed/popped at the end) is a `List Value`
   whose head is the top of the stack.
 - Functions that mutate `&mut self` are state-passing: they return the
   result together with the updated state, also in the error case, mirroring
   the fact that a Rust early return keeps mutations already performed.
 - The unboundedly recursive parser and evaluator are totalized with an
   explicit fuel parameter; running out of fuel yields the designated
   `OutOfFuel` artifact, which no theorem below ever exercises.
 - Rust panics (integer division by zero inside `Scalar::div`) are modelled
   as `Option.none` / a designated `PanicDivByZero` artifact.
-/

/-! ### token.rs: positions and tokens -/

/-- `Position { line, column }` from token.rs, zero-based. -/
structure Position where
  line : Nat
  column : Nat
deriving DecidableEq, Repr

/-- `StringTokenizer::advance`: position update for one consumed character. -/
def Position.advanceChar (p : Position) (c : Char) : Position :=
  if c = '\n' then ⟨p.line + 1, 0⟩ else ⟨p.line, p.column + 1⟩

/-- `Number` from token.rs (`Integer(u64)` as a bounded `Nat`, `Float(f64)` as `Rat`). -/
inductive Number where
  | Integer (n : Nat)
  | Float (q : Rat)
deriving DecidableEq, Repr

/-- `Payload` from token.rs.  The reserved word token `Payload::Let` is named
`Payload.LetKw` here because `Let` mirrors a Rust enum variant whose lower-case
form is a Lean keyword. -/
inductive Payload where
  | Name (s : String)
  | Variable (s : String)
  | LitNumber (n : Number)
  | LetKw
  | Pipe
  | Concat
  | ParenL
  | ParenR
  | Newline
  | VoidNewline
  | EOF
deriving DecidableEq, Repr

/-- `Token { payload, position }` from token.rs. -/
structure Token where
  payload : Payload
  position : Position
deriving DecidableEq, Repr

/-- `token::ErrorKind` from token.rs. -/
inductive TokErrorKind where
  | InvalidCRLFSequence
  | EmptyVariableName
  | EmptyFunctionName
  | InvalidLiteral
  | InvalidPipe
  | ExpectedNewlineAfterBang
deriving DecidableEq, Repr

/-- `token::Error { kind, at }` from token.rs (field `at` renamed `pos`). -/
structure TokError where
  kind : TokErrorKind
  pos : Position
deriving DecidableEq, Repr

/-- `StringTokenizer`: the remaining characters plus the current position. -/
structure Tokenizer where
  chars : List Char
  pos : Position
deriving DecidableEq, Repr

/-- `StringTokenizer::new`. -/
def Tokenizer.mk0 (s : String) : Tokenizer := ⟨s.toList, ⟨0, 0⟩⟩

/-- `StringTokenizer::take_while`, recursion on the character list: consumed
run, remaining characters, and final position. -/
def takeWhileAux (cond : Char → Bool) : List Char → Position → (List Char × List Char × Position)
  | [], p => ([], [], p)
  | c :: rest, p =>
    if cond c then
      let (s, r, q) := takeWhileAux cond rest (p.advanceChar c)
      (c :: s, r, q)
    else ([], c :: rest, p)

/-- `StringTokenizer::take_while`: consume characters while the condition holds,
returning them together with the advanced tokenizer. -/
def takeWhileP (cond : Char → Bool) (t : Tokenizer) : List Char × Tokenizer :=
  let (s, r, q) := takeWhileAux cond t.chars t.pos
  (s, ⟨r, q⟩)

/-- The "name" character class of `parse_name` (ASCII restriction of the
Unicode classes used by the source). -/
def isNameChar (c : Char) : Bool :=
  !(c = ';' || c = '(' || c = ')' || c = '\'' || c = '$' || c = '=' || c = '!')
    && !c.isWhitespace

/-- `StringTokenizer::parse_name`: a maximal run of name characters whose first
character additionally is not a digit; empty runs give `none`. -/
def parseName (t : Tokenizer) : Option (String × Tokenizer) :=
  match t with
  | ⟨[], _⟩ => none
  | ⟨c :: rest, p⟩ =>
    if isNameChar c && !c.isDigit then
      let (s, t1) := takeWhileP isNameChar ⟨rest, p.advanceChar c⟩
      some (String.mk (c :: s), t1)
    else none

/-- Digit-run to numeric value, as `str::parse::<u64>` does on an all-digit
string (the `u64` bound is checked at the call site). -/
def digitsToNat (ds : List Char) : Nat :=
  ds.foldl (fun acc c => acc * 10 + (c.toNat - '0'.toNat)) 0

/-- `StringTokenizer::advance` ignoring the returned character: consume one
character when present. -/
def Tokenizer.advance1 : Tokenizer → Tokenizer
  | ⟨[], p⟩ => ⟨[], p⟩
  | ⟨c :: rest, p⟩ => ⟨rest, p.advanceChar c⟩

/-- The shared shape of the `'\r'`, `'!'` and `'='` arms of `read_token`:
`self.advance()` has consumed `first`; a second `self.advance()` must yield
`second` (else the error `err` at the position reached); the resulting
`payload` then goes through the shared post-`match` `self.advance()`, which
consumes one further character when one is present, exactly as the source
does. -/
def pairCont (first second : Char) (payload : Payload) (err : TokErrorKind)
    (rest : List Char) (p : Position) : Except TokError (Token × Tokenizer) :=
  match rest with
  | c2 :: rest2 =>
    if c2 = second then
      let t := Tokenizer.advance1 ⟨rest2, (p.advanceChar first).advanceChar c2⟩
      .ok (⟨payload, t.pos⟩, t)
    else .error ⟨err, (p.advanceChar first).advanceChar c2⟩
  | [] => .error ⟨err, p.advanceChar first⟩

/-- `StringTokenizer::read_token` from token.rs, recursion on the character
list (the `continue` of the whitespace arm). -/
def readTokenAux : List Char → Position → Except TokError (Token × Tokenizer)
  | [], p => .ok (⟨.EOF, p⟩, ⟨[], p⟩)
  | c :: rest, p =>
    if c = '\n' then
      let t := Tokenizer.mk rest (p.advanceChar c)
      .ok (⟨.Newline, t.pos⟩, t)
    else if c = '\r' then
      pairCont '\r' '\n' .Newline .InvalidCRLFSequence rest p
    else if c = '!' then
      pairCont '!' '\n' .VoidNewline .ExpectedNewlineAfterBang rest p
    else if c = ';' then
      let t := Tokenizer.mk rest (p.advanceChar c)
      .ok (⟨.Concat, t.pos⟩, t)
    else if c = '=' then
      pairCont '=' '>' .Pipe .InvalidPipe rest p
    else if c = '(' then
      let t := Tokenizer.mk rest (p.advanceChar c)
      .ok (⟨.ParenL, t.pos⟩, t)
    else if c = ')' then
      let t := Tokenizer.mk rest (p.advanceChar c)
      .ok (⟨.ParenR, t.pos⟩, t)
    else if c.isWhitespace then
      readTokenAux rest (p.advanceChar c)
    else if c = '$' then
      match parseName ⟨rest, p.advanceChar '$'⟩ with
      | some (name, t) => .ok (⟨.Variable name, t.pos⟩, t)
      | none => .error ⟨.EmptyVariableName, p.advanceChar '$'⟩
    else if c.isDigit then
      let (digits, t) := takeWhileP Char.isDigit ⟨c :: rest, p⟩
      let n := digitsToNat digits
      if n < 2 ^ 64 then .ok (⟨.LitNumber (.Integer n), t.pos⟩, t)
      else .error ⟨.InvalidLiteral, t.pos⟩
    else
      match parseName ⟨c :: rest, p⟩ with
      | some (name, t) =>
        .ok (⟨if name = "let" then .LetKw else .Name name, t.pos⟩, t)
      | none => .error ⟨.EmptyFunctionName, p⟩

/-- `TokenSource::read_token` for `StringTokenizer`. -/
def readToken (t : Tokenizer) : Except TokError (Token × Tokenizer) :=
  readTokenAux t.chars t.pos

/-- `TokenSource::peek_token` for `StringTokenizer`: read from a clone of the
state, leaving the original untouched. -/
def peekToken (t : Tokenizer) : Except TokError Token :=
  (readToken t).map Prod.fst

/-! ### ast.rs: the AST and the recursive-descent parser -/

/-- `Literal` from ast.rs. -/
inductive Literal where
  | Number (n : Number)
deriving DecidableEq, Repr

mutual
/-- `ExpressionContent` from ast.rs (`Let` named `LetB`, see `Payload.LetKw`). -/
inductive ExpressionContent where
  | Literal (l : Literal)
  | Variable (name : String)
  | FunctionCall (name : String) (args : List Argument)
  | LetB (name : String) (init : Option Argument)
  | Screen (a1 a2 : Argument)

/-- `Argument` from ast.rs (the `Box` of `Parenthesized` disappears). -/
inductive Argument where
  | Variable (name : String)
  | Literal (l : Literal)
  | Parenthesized (content : ExpressionContent)
end

/-- `Expression` from ast.rs. -/
structure Expression where
  content : ExpressionContent
  draw_result : Bool
  position : Position

/-- `Instruction` from ast.rs. -/
structure Instruction where
  expressions : List Expression

/-- `Program` from ast.rs. -/
structure Program where
  instructions : List Instruction

/-- `ast::ErrorKind`.  `OutOfFuel` is a model artifact marking exhaustion of
the fuel that totalizes the parser's recursion; no source construct maps to
it and no theorem below exercises it. -/
inductive ParseErrorKind where
  | InvalidToken (k : TokErrorKind)
  | UnexpectedToken (p : Payload)
  | ExpectedExpression
  | UnclosedDelimiter
  | ExpectedIdentifier
  | OutOfFuel
deriving DecidableEq, Repr

/-- `ast::Error { at, kind }` (field `at` renamed `pos`). -/
structure ParseError where
  pos : Position
  kind : ParseErrorKind
deriving DecidableEq, Repr

/-- `impl From<token::Error> for ast::Error`. -/
def liftTokErr (e : TokError) : ParseError := ⟨e.pos, .InvalidToken e.kind⟩

/-- The parser's mutually recursive functions, gathered so that the fuel-indexed
family `parserFuel` can tie the recursive knot with one structural recursion
on `Nat` (each recursive call of the source runs at one fuel level lower). -/
structure PPack where
  arg : Tokenizer → Except ParseError (Option Argument × Tokenizer)
  expr : Tokenizer → Except ParseError (Option ExpressionContent × Tokenizer)
  argsLoop : Tokenizer → List Argument → Except ParseError (List Argument × Tokenizer)
  instrLoop : Tokenizer → List Expression → Except ParseError (List Expression × Tokenizer)
  instr : Tokenizer → Except ParseError (Option Instruction × Tokenizer)
  fileLoop : Tokenizer → List Instruction → Except ParseError Program

/-- `parse_arg` from ast.rs, abstracted over its callees: peek; a `Variable` or
number-literal token is consumed as a leaf argument; `ParenL` opens a
parenthesized sub-expression (inner `parse_expr`, then a required `ParenR`);
anything else is "no argument".  The final `source.read_token()` of the source
consumes the peeked token in each `some` arm. -/
def argBody (pExpr : Tokenizer → Except ParseError (Option ExpressionContent × Tokenizer))
    (t : Tokenizer) : Except ParseError (Option Argument × Tokenizer) :=
  match peekToken t with
  | .error e => .error (liftTokErr e)
  | .ok start =>
    match start.payload with
    | .Variable name =>
      match readToken t with
      | .error e => .error (liftTokErr e)
      | .ok (_, t1) => .ok (some (.Variable name), t1)
    | .LitNumber n =>
      match readToken t with
      | .error e => .error (liftTokErr e)
      | .ok (_, t1) => .ok (some (.Literal (.Number n)), t1)
    | .ParenL =>
      match readToken t with
      | .error e => .error (liftTokErr e)
      | .ok (_, t1) =>
        match pExpr t1 with
        | .error e => .error e
        | .ok (none, _) => .error ⟨start.position, .ExpectedExpression⟩
        | .ok (some expr, t2) =>
          match peekToken t2 with
          | .error e => .error (liftTokErr e)
          | .ok next =>
            match next.payload with
            | .ParenR =>
              match readToken t2 with
              | .error e => .error (liftTokErr e)
              | .ok (_, t3) => .ok (some (.Parenthesized expr), t3)
            | _ => .error ⟨start.position, .UnclosedDelimiter⟩
    | _ => .ok (none, t)

/-- The `while let Some(arg) = parse_arg(source)?` loop of `parse_expr`'s
`Name` arm, as a tail recursion with accumulator. -/
def argsLoopBody (pArg : Tokenizer → Except ParseError (Option Argument × Tokenizer))
    (pArgsLoop : Tokenizer → List Argument → Except ParseError (List Argument × Tokenizer))
    (t : Tokenizer) (acc : List Argument) :
    Except ParseError (List Argument × Tokenizer) :=
  match pArg t with
  | .error e => .error e
  | .ok (none, t1) => .ok (acc, t1)
  | .ok (some a, t1) => pArgsLoop t1 (acc ++ [a])

/-- `parse_expr` from ast.rs, abstracted over its callees.  The actual token
stream (token.rs) has no `screen` keyword token, so the source's
`Keyword(Screen)` arm is unreachable and has no counterpart here; `VoidNewline`
falls into the `other` arm as in the source. -/
def exprBody (pArg : Tokenizer → Except ParseError (Option Argument × Tokenizer))
    (pArgsLoop : Tokenizer → List Argument → Except ParseError (List Argument × Tokenizer))
    (t : Tokenizer) : Except ParseError (Option ExpressionContent × Tokenizer) :=
  match readToken t with
  | .error e => .error (liftTokErr e)
  | .ok (tok, t1) =>
    match tok.payload with
    | .LitNumber n => .ok (some (.Literal (.Number n)), t1)
    | .Variable name => .ok (some (.Variable name), t1)
    | .Name name =>
      match pArgsLoop t1 [] with
      | .error e => .error e
      | .ok (args, t2) => .ok (some (.FunctionCall name args), t2)
    | .LetKw =>
      match readToken t1 with
      | .error e => .error (liftTokErr e)
      | .ok (tok2, t2) =>
        match tok2.payload with
        | .Name name =>
          match pArg t2 with
          | .error e => .error e
          | .ok (init, t3) => .ok (some (.LetB name init), t3)
        | _ => .error ⟨tok2.position, .ExpectedIdentifier⟩
    | .Newline => .ok (none, t1)
    | .EOF => .ok (none, t1)
    | other => .error ⟨tok.position, .UnexpectedToken other⟩

/-- The `loop` of `parse_instruction` from ast.rs, as a tail recursion with
accumulator: `source.position()` is taken before `parse_expr`; the token read
after the expression decides `draw_result` (`Pipe` → `false`; `Concat`,
`Newline`, `Eof` → `true`; anything else is `UnexpectedToken` at that token's
position) and `Newline`/`Eof` additionally break out of the loop. -/
def instrLoopBody (pExpr : Tokenizer → Except ParseError (Option ExpressionContent × Tokenizer))
    (pInstrLoop : Tokenizer → List Expression → Except ParseError (List Expression × Tokenizer))
    (t : Tokenizer) (acc : List Expression) :
    Except ParseError (List Expression × Tokenizer) :=
  let position := t.pos
  match pExpr t with
  | .error e => .error e
  | .ok (none, t1) => .ok (acc, t1)
  | .ok (some content, t1) =>
    match readToken t1 with
    | .error e => .error (liftTokErr e)
    | .ok (join, t2) =>
      match join.payload with
      | .Pipe => pInstrLoop t2 (acc ++ [⟨content, false, position⟩])
      | .Concat => pInstrLoop t2 (acc ++ [⟨content, true, position⟩])
      | .Newline => .ok (acc ++ [⟨content, true, position⟩], t2)
      | .EOF => .ok (acc ++ [⟨content, true, position⟩], t2)
      | other => .error ⟨join.position, .UnexpectedToken other⟩

/-- `parse_instruction` from ast.rs: run the loop; an empty result means a
blank line, so either stop (peek is `Eof`) or recursively parse the next
instruction. -/
def instrBody (pInstrLoop : Tokenizer → List Expression → Except ParseError (List Expression × Tokenizer))
    (pInstr : Tokenizer → Except ParseError (Option Instruction × Tokenizer))
    (t : Tokenizer) : Except ParseError (Option Instruction × Tokenizer) :=
  match pInstrLoop t [] with
  | .error e => .error e
  | .ok (exprs, t1) =>
    if exprs.isEmpty then
      match peekToken t1 with
      | .error e => .error (liftTokErr e)
      | .ok tok =>
        if tok.payload = .EOF then .ok (none, t1) else pInstr t1
    else .ok (some ⟨exprs⟩, t1)

/-- The `while let Some(instruction) = parse_instruction(source)?` loop of
`parse_file` from ast.rs. -/
def fileLoopBody (pInstr : Tokenizer → Except ParseError (Option Instruction × Tokenizer))
    (pFileLoop : Tokenizer → List Instruction → Except ParseError Program)
    (t : Tokenizer) (acc : List Instruction) : Except ParseError Program :=
  match pInstr t with
  | .error e => .error e
  | .ok (none, _) => .ok ⟨acc⟩
  | .ok (some i, t1) => pFileLoop t1 (acc ++ [i])

/-- The fuel-indexed family of parser functions.  At fuel `n + 1` every
function is the corresponding ast.rs function with its recursive calls taken
at fuel `n`; at fuel `0` everything reports the `OutOfFuel` artifact. -/
def parserFuel : Nat → PPack
  | 0 =>
    ⟨fun t => .error ⟨t.pos, .OutOfFuel⟩,
     fun t => .error ⟨t.pos, .OutOfFuel⟩,
     fun t _ => .error ⟨t.pos, .OutOfFuel⟩,
     fun t _ => .error ⟨t.pos, .OutOfFuel⟩,
     fun t => .error ⟨t.pos, .OutOfFuel⟩,
     fun t _ => .error ⟨t.pos, .OutOfFuel⟩⟩
  | n + 1 =>
    let p := parserFuel n
    { arg := argBody p.expr
      expr := exprBody p.arg p.argsLoop
      argsLoop := argsLoopBody p.arg p.argsLoop
      instrLoop := instrLoopBody p.expr p.instrLoop
      instr := instrBody p.instrLoop p.instr
      fileLoop := fileLoopBody p.instr p.fileLoop }

/-- `parse_arg` at a given fuel. -/
def parseArg (fuel : Nat) : Tokenizer → Except ParseError (Option Argument × Tokenizer) :=
  (parserFuel fuel).arg

/-- `parse_expr` at a given fuel. -/
def parseExpr (fuel : Nat) : Tokenizer → Except ParseError (Option ExpressionContent × Tokenizer) :=
  (parserFuel fuel).expr

/-- The argument loop of `parse_expr` at a given fuel. -/
def parseArgsLoop (fuel : Nat) :
    Tokenizer → List Argument → Except ParseError (List Argument × Tokenizer) :=
  (parserFuel fuel).argsLoop

/-- The expression loop of `parse_instruction` at a given fuel. -/
def parseInstrLoop (fuel : Nat) :
    Tokenizer → List Expression → Except ParseError (List Expression × Tokenizer) :=
  (parserFuel fuel).instrLoop

/-- `parse_instruction` at a given fuel. -/
def parseInstruction (fuel : Nat) : Tokenizer → Except ParseError (Option Instruction × Tokenizer) :=
  (parserFuel fuel).instr

/-- `parse_file` at a given fuel. -/
def parseFile (fuel : Nat) (t : Tokenizer) : Except ParseError Program :=
  (parserFuel fuel).fileLoop t []

/-! ### stdlib/scalar.rs: the Scalar numeric model -/

/-- `Scalar` from stdlib/scalar.rs, with the `repr(transparent)` wrapper around
`ScalarInner` flattened: a tagged union of `i64` (as `Int`) and `f64` (as `Rat`). -/
inductive Scalar where
  | Integer (i : Int)
  | Float (f : Rat)
deriving DecidableEq, Repr

/-- `impl From<Scalar> for f64`. -/
def Scalar.toRat : Scalar → Rat
  | .Integer i => (i : Rat)
  | .Float f => f

/-- Whether a Scalar carries the `Float` tag. -/
def Scalar.isFloat : Scalar → Bool
  | .Integer _ => false
  | .Float _ => true

/-- Two's-complement wrap of an integer into the signed 64-bit range
`[-2^63, 2^63)`: the value an overflowing Rust `i64` operation produces in a
release build.  On the in-range results the claims exercise it is the
identity (`wrap64_eq_of_range`); an out-of-range result additionally panics
under the debug profile's overflow checks, so it is never the mathematical
result in either build mode. -/
def wrap64 (n : Int) : Int := (n + 2 ^ 63) % 2 ^ 64 - 2 ^ 63

/-- `impl Add<Scalar> for Scalar`: Integer⊕Integer stays Integer (the `i64`
sum, wrapping on overflow — see `wrap64`), any Float operand widens the other
operand and yields Float. -/
def Scalar.add : Scalar → Scalar → Scalar
  | .Integer a, .Integer b => .Integer (wrap64 (a + b))
  | .Float a, .Float b => .Float (a + b)
  | .Integer a, .Float b => .Float ((a : Rat) + b)
  | .Float a, .Integer b => .Float (a + (b : Rat))

/-- `impl Sub<Scalar> for Scalar` (the `i64` difference wraps on overflow). -/
def Scalar.sub : Scalar → Scalar → Scalar
  | .Integer a, .Integer b => .Integer (wrap64 (a - b))
  | .Float a, .Float b => .Float (a - b)
  | .Integer a, .Float b => .Float ((a : Rat) - b)
  | .Float a, .Integer b => .Float (a - (b : Rat))

/-- `impl Mul<Scalar> for Scalar` (the `i64` product wraps on overflow). -/
def Scalar.mul : Scalar → Scalar → Scalar
  | .Integer a, .Integer b => .Integer (wrap64 (a * b))
  | .Float a, .Float b => .Float (a * b)
  | .Integer a, .Float b => .Float ((a : Rat) * b)
  | .Float a, .Integer b => .Float (a * (b : Rat))

/-- `impl Div<Scalar> for Scalar`: two Integers whose division is exact stay
Integer; every other pair divides in Float.  The guard `a % b == 0` of the
source panics in every build mode when `b == 0` and also at
`i64::MIN % -1` (remainder overflow), both rendered as `none`; for the
remaining divisors the Rust truncated remainder is zero exactly when Lean's
`a % b` is, and the exact quotient of in-range operands is in range. -/
def Scalar.div : Scalar → Scalar → Option Scalar
  | .Integer a, .Integer b =>
    if b = 0 ∨ (a = -(2 ^ 63) ∧ b = -1) then none
    else if a % b = 0 then some (.Integer (a / b))
    else some (.Float ((a : Rat) / (b : Rat)))
  | a, b => some (.Float (a.toRat / b.toRat))

/-- `Scalar::sqrt`: both tags produce a Float square root (`Rat.sqrt` models
`f64::sqrt`; they agree on the perfect squares the claims evaluate). -/
def Scalar.sqrt : Scalar → Scalar
  | .Integer i => .Float (Rat.sqrt (i : Rat))
  | .Float f => .Float (Rat.sqrt f)

/-- `impl TryFrom<Number> for Scalar`: an integer literal above `i64::MAX`
fails with `IntLiteralTooLarge` (checked on the `u64`-ranged `Nat`). -/
def Scalar.tryFromNumber (n : Number) : Option Scalar :=
  match n with
  | .Integer i => if i > 2 ^ 63 - 1 then none else some (.Integer (i : Int))
  | .Float f => some (.Float f)

/-! ### stdlib/point.rs and stdlib/vector.rs: geometric values -/

/-- `Point` from stdlib/point.rs. -/
structure Point where
  x : Scalar
  y : Scalar
deriving DecidableEq, Repr

/-- `Vector` from stdlib/vector.rs. -/
structure Vector where
  x : Scalar
  y : Scalar
deriving DecidableEq, Repr

/-- `impl Add<Vector> for Point`. -/
def Point.addV (p : Point) (v : Vector) : Point := ⟨p.x.add v.x, p.y.add v.y⟩

/-- `impl Sub<Vector> for Point`. -/
def Point.subV (p : Point) (v : Vector) : Point := ⟨p.x.sub v.x, p.y.sub v.y⟩

/-- `impl Sub<Point> for Point` (yields a Vector). -/
def Point.subP (p q : Point) : Vector := ⟨p.x.sub q.x, p.y.sub q.y⟩

/-- `impl Add for Vector`. -/
def Vector.add (a b : Vector) : Vector := ⟨a.x.add b.x, a.y.add b.y⟩

/-- `impl Sub for Vector`. -/
def Vector.sub (a b : Vector) : Vector := ⟨a.x.sub b.x, a.y.sub b.y⟩

/-- `impl Mul<Scalar> for Vector`. -/
def Vector.mulS (v : Vector) (r : Scalar) : Vector := ⟨v.x.mul r, v.y.mul r⟩

/-- `impl Div<Scalar> for Vector` (componentwise `Scalar` division, so it
inherits the division-by-zero panic as `none`). -/
def Vector.divS (v : Vector) (r : Scalar) : Option Vector := do
  let x ← v.x.div r
  let y ← v.y.div r
  return ⟨x, y⟩

/-! ### runtime.rs: values, stack and errors -/

/-- `Value` from runtime.rs. -/
inductive Value where
  | Void
  | Scalar (s : Scalar)
  | Point (p : Point)
  | Vector (v : Vector)
  | Line (p : Point) (v : Vector)
deriving DecidableEq, Repr

/-- `runtime::Error`.  `OutOfFuel` is the fuel artifact of the totalized
evaluator and `PanicDivByZero` models the Rust panic of `Scalar::div` on a
zero integer divisor; neither corresponds to a `runtime::Error` variant and no
theorem below exercises them. -/
inductive RTError where
  | StackUnderflow
  | InvalidArgument
  | VariableNotFound (name : String)
  | FunctionNotFound (name : String)
  | TypeError
  | IntLiteralTooLarge
  | MissingArgument
  | NonRealResult
  | OutOfFuel
  | PanicDivByZero
deriving DecidableEq, Repr

/-- The evaluation stack (`runtime::Stack`), head = top. -/
abbrev Stack := List Value

/-- `Stack::push`: `Void` is never pushed. -/
def Stack.push (s : Stack) (v : Value) : Stack :=
  match v with
  | .Void => s
  | v => v :: s

/-- `Stack::pop`: `StackUnderflow` on an empty stack. -/
def Stack.pop (s : Stack) : Except RTError (Value × Stack) :=
  match s with
  | [] => .error .StackUnderflow
  | v :: rest => .ok (v, rest)

/-! ### output.rs: draw commands -/

/-- `Mm` from output.rs (`Mm(pub f64)` as its `Rat` payload). -/
abbrev Mm := Rat

/-- `DrawCommand` from output.rs (`at` of `Circle` renamed `center`). -/
inductive DrawCommand where
  | Line (f t : Mm × Mm)
  | Circle (center : Mm × Mm) (radius : Mm)
  | Resize (x y : Mm)
deriving DecidableEq, Repr

/-- `impl From<Value> for Option<DrawCommand>`: only a `Line` value converts,
to a line from its origin to origin plus direction; everything else converts
to no command. -/
def valueToDrawCommand : Value → Option DrawCommand
  | .Line p v =>
    some (.Line (p.x.toRat, p.y.toRat) ((p.x.add v.x).toRat, (p.y.add v.y).toRat))
  | _ => none

/-! ### stdlib: the built-in functions

Each built-in is `fn(&mut Stack) -> Result<Value, Error>`; the model passes
the stack explicitly and also returns it in the error case (the operands
popped before the failure stay consumed, as in the source).  The
`reverse_pop!(stack => a, b)` macro pops `b` first, then `a`, mapping a pop
failure to `MissingArgument`. -/

/-- The result/stack pair every modelled built-in returns. -/
abbrev BuiltinOut := (Except RTError Value) × Stack

/-- `stdlib::add` (identical in stdlib.rs and stdlib/basic.rs). -/
def Stdlib.add (stack : Stack) : BuiltinOut :=
  match stack with
  | [] => (.error .MissingArgument, [])
  | [_] => (.error .MissingArgument, [])
  | b :: a :: rest =>
    match a, b with
    | .Scalar a, .Scalar b => (.ok (.Scalar (a.add b)), rest)
    | .Vector a, .Vector b => (.ok (.Vector (a.add b)), rest)
    | .Vector vec, .Point pnt => (.ok (.Point (pnt.addV vec)), rest)
    | .Point pnt, .Vector vec => (.ok (.Point (pnt.addV vec)), rest)
    | _, _ => (.error .TypeError, rest)

/-- `stdlib::sub`. -/
def Stdlib.sub (stack : Stack) : BuiltinOut :=
  match stack with
  | [] => (.error .MissingArgument, [])
  | [_] => (.error .MissingArgument, [])
  | b :: a :: rest =>
    match a, b with
    | .Scalar a, .Scalar b => (.ok (.Scalar (a.sub b)), rest)
    | .Vector a, .Vector b => (.ok (.Vector (a.sub b)), rest)
    | .Point a, .Point b => (.ok (.Vector (a.subP b)), rest)
    | .Point pnt, .Vector vec => (.ok (.Point (pnt.subV vec)), rest)
    | _, _ => (.error .TypeError, rest)

/-- `stdlib::mul`. -/
def Stdlib.mul (stack : Stack) : BuiltinOut :=
  match stack with
  | [] => (.error .MissingArgument, [])
  | [_] => (.error .MissingArgument, [])
  | b :: a :: rest =>
    match a, b with
    | .Scalar a, .Scalar b => (.ok (.Scalar (a.mul b)), rest)
    | .Vector vec, .Scalar r => (.ok (.Vector (vec.mulS r)), rest)
    | .Scalar r, .Vector vec => (.ok (.Vector (vec.mulS r)), rest)
    | _, _ => (.error .TypeError, rest)

/-- `stdlib::div` (`PanicDivByZero` models the Rust panic inside `Scalar::div`
and `Vector::div` on a zero integer divisor). -/
def Stdlib.div (stack : Stack) : BuiltinOut :=
  match stack with
  | [] => (.error .MissingArgument, [])
  | [_] => (.error .MissingArgument, [])
  | b :: a :: rest =>
    match a, b with
    | .Scalar a, .Scalar b =>
      match a.div b with
      | some s => (.ok (.Scalar s), rest)
      | none => (.error .PanicDivByZero, rest)
    | .Vector vec, .Scalar r =>
      match vec.divS r with
      | some v => (.ok (.Vector v), rest)
      | none => (.error .PanicDivByZero, rest)
    | _, _ => (.error .TypeError, rest)

/-- `point::pnt2` from stdlib/point.rs: `reverse_pop!(stack => x, y)` pops `y`
from the top, then `x`; both must be Scalars; yields `Point { x, y }`. -/
def Stdlib.pnt2 (stack : Stack) : BuiltinOut :=
  match stack with
  | [] => (.error .MissingArgument, [])
  | [_] => (.error .MissingArgument, [])
  | y :: x :: rest =>
    match x, y with
    | .Scalar x, .Scalar y => (.ok (.Point ⟨x, y⟩), rest)
    | _, _ => (.error .TypeError, rest)

/-- `point::lvec`. -/
def Stdlib.lvec (stack : Stack) : BuiltinOut :=
  match stack with
  | [] => (.error .MissingArgument, [])
  | pnt :: rest =>
    match pnt with
    | .Point pnt => (.ok (.Vector ⟨pnt.x, pnt.y⟩), rest)
    | _ => (.error .TypeError, rest)

/-- `point::x`. -/
def Stdlib.x (stack : Stack) : BuiltinOut :=
  match stack with
  | [] => (.error .MissingArgument, [])
  | pnt :: rest =>
    match pnt with
    | .Point pnt => (.ok (.Scalar pnt.x), rest)
    | .Vector vec => (.ok (.Scalar vec.x), rest)
    | _ => (.error .TypeError, rest)

/-- `point::y`. -/
def Stdlib.y (stack : Stack) : BuiltinOut :=
  match stack with
  | [] => (.error .MissingArgument, [])
  | pnt :: rest =>
    match pnt with
    | .Point pnt => (.ok (.Scalar pnt.y), rest)
    | .Vector vec => (.ok (.Scalar vec.y), rest)
    | _ => (.error .TypeError, rest)

/-- `vector::vec2` from stdlib/vector.rs. -/
def Stdlib.vec2 (stack : Stack) : BuiltinOut :=
  match stack with
  | [] => (.error .MissingArgument, [])
  | [_] => (.error .MissingArgument, [])
  | y :: x :: rest =>
    match x, y with
    | .Scalar x, .Scalar y => (.ok (.Vector ⟨x, y⟩), rest)
    | _, _ => (.error .TypeError, rest)

/-- `vector::dot`. -/
def Stdlib.dot (stack : Stack) : BuiltinOut :=
  match stack with
  | [] => (.error .MissingArgument, [])
  | [_] => (.error .MissingArgument, [])
  | rhs :: lhs :: rest =>
    match lhs, rhs with
    | .Vector lhs, .Vector rhs =>
      (.ok (.Scalar ((lhs.x.mul rhs.x).add (lhs.y.mul rhs.y))), rest)
    | _, _ => (.error .TypeError, rest)

/-- `point::jump`: builds a Vector via `vec2` (propagating its error), then
pops a Point and displaces it.  The `unreachable!()` arm of the source (vec2
can only return a Vector) is modelled as `TypeError`. -/
def Stdlib.jump (stack : Stack) : BuiltinOut :=
  match Stdlib.vec2 stack with
  | (.error e, rest) => (.error e, rest)
  | (.ok v, rest) =>
    match v with
    | .Vector vec =>
      match rest with
      | [] => (.error .MissingArgument, [])
      | previous :: rest2 =>
        match previous with
        | .Point previous => (.ok (.Point (previous.addV vec)), rest2)
        | _ => (.error .TypeError, rest2)
    | _ => (.error .TypeError, rest)

/-- `scalar::sqrt` from stdlib/scalar.rs: pop one value; a Scalar whose `f64`
image is `>= 0` yields its Float square root, a negative one fails with
`NonRealResult`, a non-Scalar with `TypeError`. -/
def Stdlib.sqrt (stack : Stack) : BuiltinOut :=
  match stack with
  | [] => (.error .MissingArgument, [])
  | x :: rest =>
    match x with
    | .Scalar scalar =>
      if 0 ≤ scalar.toRat then (.ok (.Scalar scalar.sqrt), rest)
      else (.error .NonRealResult, rest)
    | _ => (.error .TypeError, rest)

/-- The statically registered function table (`stdlib::register` plus the
`register` functions of basic.rs, point.rs, vector.rs, scalar.rs). -/
def stdlibFunctions : String → Option (Stack → BuiltinOut) := fun name =>
  if name = "add" then some Stdlib.add
  else if name = "sub" then some Stdlib.sub
  else if name = "mul" then some Stdlib.mul
  else if name = "div" then some Stdlib.div
  else if name = "pnt2" then some Stdlib.pnt2
  else if name = "lvec" then some Stdlib.lvec
  else if name = "x" then some Stdlib.x
  else if name = "y" then some Stdlib.y
  else if name = "jump" then some Stdlib.jump
  else if name = "dot" then some Stdlib.dot
  else if name = "vec2" then some Stdlib.vec2
  else if name = "sqrt" then some Stdlib.sqrt
  else none

/-! ### runtime.rs: the stack evaluator -/

/-- The variable environment (`variables: HashMap<SmolStr, Value>`), modelled
by its lookup function. -/
def Env := String → Option Value

/-- `HashMap::insert`: overwrite the binding for `name`. -/
def Env.insert (env : Env) (name : String) (v : Value) : Env :=
  fun n => if n = name then some v else env n

/-- The empty environment. -/
def Env.empty : Env := fun _ => none

/-- The mutable state of `Runtime<Backend>`: stack, variables (field `vars`), function table,
and the backend modelled as the list of draw commands it has accepted. -/
structure RTState where
  stack : Stack
  vars : Env
  functions : String → Option (Stack → BuiltinOut)
  draws : List DrawCommand

/-- `Runtime::default()`: empty stack and variables, the stdlib function
table, and a fresh backend. -/
def initState : RTState := ⟨[], Env.empty, stdlibFunctions, []⟩

/-- The mutually recursive evaluator functions of runtime.rs, gathered so the
fuel-indexed family `evalFuel` can tie the recursive knot (the recursion is
through `Argument::Parenthesized`). -/
structure EPack where
  expr : RTState → ExpressionContent → (Except RTError Value) × RTState
  arg : RTState → Argument → (Except RTError Value) × RTState
  pushArgs : RTState → List Argument → (Except RTError Unit) × RTState

/-- `Runtime::execute_expression`, abstracted over its callees.  The
`FunctionCall` arm evaluates and pushes every argument before the function
lookup, so an unknown name fails only after those effects; `Let` without an
initializer pops from the stack; `Screen` evaluates both arguments, requires
Scalars, and forwards a `Resize` command unconditionally. -/
def execExprBody (eArg : RTState → Argument → (Except RTError Value) × RTState)
    (ePushArgs : RTState → List Argument → (Except RTError Unit) × RTState)
    (st : RTState) (e : ExpressionContent) : (Except RTError Value) × RTState :=
  match e with
  | .Literal l =>
    match l with
    | .Number number =>
      match Scalar.tryFromNumber number with
      | some s => (.ok (.Scalar s), st)
      | none => (.error .IntLiteralTooLarge, st)
  | .Variable name =>
    match st.vars name with
    | some v => (.ok v, st)
    | none => (.error (.VariableNotFound name), st)
  | .FunctionCall name args =>
    match ePushArgs st args with
    | (.error e, st1) => (.error e, st1)
    | (.ok _, st1) =>
      match st1.functions name with
      | none => (.error (.FunctionNotFound name), st1)
      | some f =>
        let (r, stack1) := f st1.stack
        (r, { st1 with stack := stack1 })
  | .LetB name init =>
    match init with
    | some init =>
      match eArg st init with
      | (.error e, st1) => (.error e, st1)
      | (.ok v, st1) =>
        (.ok v, { st1 with vars := st1.vars.insert name v })
    | none =>
      match st.stack.pop with
      | .error e => (.error e, st)
      | .ok (v, stack1) =>
        (.ok v, { st with stack := stack1, vars := st.vars.insert name v })
  | .Screen a1 a2 =>
    match eArg st a1 with
    | (.error e, st1) => (.error e, st1)
    | (.ok v1, st1) =>
      match eArg st1 a2 with
      | (.error e, st2) => (.error e, st2)
      | (.ok v2, st2) =>
        match v1, v2 with
        | .Scalar x, .Scalar y =>
          (.ok .Void, { st2 with draws := st2.draws ++ [.Resize x.toRat y.toRat] })
        | _, _ => (.error .InvalidArgument, st2)

/-- `Runtime::execute_argument`, abstracted over `execute_expression`. -/
def execArgBody (eExpr : RTState → ExpressionContent → (Except RTError Value) × RTState)
    (st : RTState) (a : Argument) : (Except RTError Value) × RTState :=
  match a with
  | .Variable name =>
    match st.vars name with
    | some v => (.ok v, st)
    | none => (.error (.VariableNotFound name), st)
  | .Literal l =>
    match l with
    | .Number number =>
      match Scalar.tryFromNumber number with
      | some s => (.ok (.Scalar s), st)
      | none => (.error .IntLiteralTooLarge, st)
  | .Parenthesized content => eExpr st content

/-- The `for arg in args { ... }` loop of the `FunctionCall` arm: evaluate
each argument and push its value (`Stack::push` drops `Void`). -/
def pushArgsBody (eArg : RTState → Argument → (Except RTError Value) × RTState)
    (ePushArgs : RTState → List Argument → (Except RTError Unit) × RTState)
    (st : RTState) (args : List Argument) : (Except RTError Unit) × RTState :=
  match args with
  | [] => (.ok (), st)
  | a :: rest =>
    match eArg st a with
    | (.error e, st1) => (.error e, st1)
    | (.ok v, st1) => ePushArgs { st1 with stack := st1.stack.push v } rest

/-- The fuel-indexed family of evaluator functions; at fuel `n + 1` each is
the runtime.rs function with recursive calls at fuel `n`, at fuel `0`
everything reports the `OutOfFuel` artifact leaving the state unchanged. -/
def evalFuel : Nat → EPack
  | 0 =>
    ⟨fun st _ => (.error .OutOfFuel, st),
     fun st _ => (.error .OutOfFuel, st),
     fun st _ => (.error .OutOfFuel, st)⟩
  | n + 1 =>
    let p := evalFuel n
    { expr := execExprBody p.arg p.pushArgs
      arg := execArgBody p.expr
      pushArgs := pushArgsBody p.arg p.pushArgs }

/-- `Runtime::execute_expression` at a given fuel. -/
def executeExpression (fuel : Nat) : RTState → ExpressionContent → (Except RTError Value) × RTState :=
  (evalFuel fuel).expr

/-- `Runtime::execute_argument` at a given fuel. -/
def executeArgument (fuel : Nat) : RTState → Argument → (Except RTError Value) × RTState :=
  (evalFuel fuel).arg

/-- The argument-pushing loop at a given fuel. -/
def pushArguments (fuel : Nat) : RTState → List Argument → (Except RTError Unit) × RTState :=
  (evalFuel fuel).pushArgs

/-- The `for expression in instruction.expressions` loop of
`Runtime::execute_instruction`: evaluate the content, push the value, and —
only if `draw_result` is set — convert the value and forward the command (a
value converting to no command is silently skipped). -/
def execInstrLoop (fuel : Nat) (st : RTState) :
    List Expression → (Except RTError Unit) × RTState
  | [] => (.ok (), st)
  | e :: rest =>
    match executeExpression fuel st e.content with
    | (.error err, st1) => (.error err, st1)
    | (.ok v, st1) =>
      let st2 := { st1 with stack := st1.stack.push v }
      let st3 :=
        if e.draw_result then
          match valueToDrawCommand v with
          | some cmd => { st2 with draws := st2.draws ++ [cmd] }
          | none => st2
        else st2
      execInstrLoop fuel st3 rest

/-- `Runtime::execute_instruction`: run the loop, then clear the stack (only
on successful completion — a failing expression propagates its error
immediately). -/
def executeInstruction (fuel : Nat) (st : RTState) (i : Instruction) :
    (Except RTError Unit) × RTState :=
  match execInstrLoop fuel st i.expressions with
  | (.error e, st1) => (.error e, st1)
  | (.ok _, st1) => (.ok (), { st1 with stack := [] })

/-- `Runtime::execute`: run every instruction in order, stopping at the first
error. -/
def execute (fuel : Nat) (st : RTState) : List Instruction → (Except RTError Unit) × RTState
  | [] => (.ok (), st)
  | i :: rest =>
    match executeInstruction fuel st i with
    | (.error e, st1) => (.error e, st1)
    | (.ok _, st1) => execute fuel st1 rest

/-- `Runtime::execute` on a `Program`. -/
def executeProgram (fuel : Nat) (st : RTState) (p : Program) : (Except RTError Unit) × RTState :=
  execute fuel st p.instructions

/-- The runtime states at which each instruction of a run starts (the run
stops at the first error). -/
def execStarts (fuel : Nat) (st : RTState) : List Instruction → List RTState
  | [] => []
  | i :: rest =>
    st :: match executeInstruction fuel st i with
    | (.ok _, st1) => execStarts fuel st1 rest
    | (.error _, _) => []

/-! ### Helper predicates and lemmas -/

/-- Decidable equality of `Except` results, for evaluating concrete runs. -/
instance {ε α : Type} [DecidableEq ε] [DecidableEq α] : DecidableEq (Except ε α) := fun
  | .ok a, .ok b =>
    if h : a = b then .isTrue (h ▸ rfl) else .isFalse (fun he => h (Except.ok.inj he))
  | .ok _, .error _ => .isFalse Except.noConfusion
  | .error _, .ok _ => .isFalse Except.noConfusion
  | .error a, .error b =>
    if h : a = b then .isTrue (h ▸ rfl) else .isFalse (fun he => h (Except.error.inj he))

/-- Whether a runtime value is a Scalar. -/
def Value.isScalar : Value → Bool
  | .Scalar _ => true
  | _ => false

/-- Both tags of `Scalar::sqrt` produce the Float square root of the
operand's `f64` image. -/
theorem Scalar.sqrt_eq_toRat (s : Scalar) : s.sqrt = .Float (Rat.sqrt s.toRat) := by
  cases s <;> rfl

/-- `Rat.sqrt` of the image of the integer 9 is 3. -/
theorem rat_sqrt_nine : Rat.sqrt (((9 : Int) : Rat)) = 3 := by
  rw [Rat.sqrt_intCast]
  norm_num [show (9 : Int) = 3 * 3 from rfl, Int.sqrt_eq]

/-- On results inside the signed 64-bit range, the two's-complement wrap is
the identity: the `i64` operation agrees with the mathematical one exactly
when no overflow occurs. -/
theorem wrap64_eq_of_range (n : Int) (h1 : -(2 ^ 63) ≤ n) (h2 : n < 2 ^ 63) :
    wrap64 n = n := by
  unfold wrap64
  have e1 : (2 : Int) ^ 63 = 9223372036854775808 := by norm_num
  have e2 : (2 : Int) ^ 64 = 18446744073709551616 := by norm_num
  rw [e1, e2]
  rw [e1] at h1 h2
  omega

/-- Injectivity helper: a successful token read of the shape the tokenizer
produces (token position = final tokenizer position) transports that equality
to the returned pair. -/
theorem okPos {payload : Payload} {q : Position} {X : Tokenizer} {tok : Token} {t1 : Tokenizer}
    (h : (Except.ok (⟨payload, q⟩, X) : Except TokError (Token × Tokenizer)) = .ok (tok, t1))
    (hq : X.pos = q) :
    tok.position = t1.pos := by
  injection h with h
  injection h with h1 h2
  subst h1; subst h2; exact hq.symm

theorem pairCont_pos (first second : Char) (payload : Payload) (err : TokErrorKind)
    (rest : List Char) (p : Position) {tok : Token} {t1 : Tokenizer}
    (h : pairCont first second payload err rest p = .ok (tok, t1)) :
    tok.position = t1.pos := by
  cases rest with
  | nil =>
    rw [pairCont.eq_2] at h
    exact Except.noConfusion h
  | cons c2 rest2 =>
    rw [pairCont.eq_1] at h
    by_cases hc : c2 = second
    · rw [if_pos hc] at h
      exact okPos h rfl
    · rw [if_neg hc] at h
      exact Except.noConfusion h

theorem readTokenAux_pos (chars : List Char) : ∀ (p : Position) {tok : Token} {t1 : Tokenizer},
    readTokenAux chars p = .ok (tok, t1) → tok.position = t1.pos := by
  induction chars with
  | nil =>
    intro p tok t1 h
    rw [readTokenAux.eq_1] at h
    exact okPos h rfl
  | cons c rest ih =>
    intro p tok t1 h
    rw [readTokenAux.eq_2] at h
    by_cases h1 : c = '\n'
    · rw [if_pos h1] at h; exact okPos h rfl
    rw [if_neg h1] at h
    by_cases h2 : c = '\r'
    · rw [if_pos h2] at h; exact pairCont_pos _ _ _ _ _ _ h
    rw [if_neg h2] at h
    by_cases h3 : c = '!'
    · rw [if_pos h3] at h; exact pairCont_pos _ _ _ _ _ _ h
    rw [if_neg h3] at h
    by_cases h4 : c = ';'
    · rw [if_pos h4] at h; exact okPos h rfl
    rw [if_neg h4] at h
    by_cases h5 : c = '='
    · rw [if_pos h5] at h; exact pairCont_pos _ _ _ _ _ _ h
    rw [if_neg h5] at h
    by_cases h6 : c = '('
    · rw [if_pos h6] at h; exact okPos h rfl
    rw [if_neg h6] at h
    by_cases h7 : c = ')'
    · rw [if_pos h7] at h; exact okPos h rfl
    rw [if_neg h7] at h
    by_cases h8 : c.isWhitespace = true
    · rw [if_pos h8] at h; exact ih _ h
    rw [if_neg h8] at h
    by_cases h9 : c = '$'
    · rw [if_pos h9] at h
      cases hp : parseName ⟨rest, p.advanceChar '$'⟩ with
      | none =>
        simp only [hp] at h
        exact Except.noConfusion h
      | some nt =>
        obtain ⟨name, t⟩ := nt
        simp only [hp] at h
        exact okPos h rfl
    rw [if_neg h9] at h
    by_cases h10 : c.isDigit = true
    · rw [if_pos h10] at h
      rcases htw : takeWhileP Char.isDigit ⟨c :: rest, p⟩ with ⟨digits, t⟩
      simp only [htw] at h
      by_cases hn : digitsToNat digits < 2 ^ 64
      · rw [if_pos hn] at h; exact okPos h rfl
      · rw [if_neg hn] at h; exact Except.noConfusion h
    rw [if_neg h10] at h
    cases hp : parseName ⟨c :: rest, p⟩ with
    | none =>
      simp only [hp] at h
      exact Except.noConfusion h
    | some nt =>
      obtain ⟨name, t⟩ := nt
      simp only [hp] at h
      exact okPos h rfl

/-! ### The claims -/

/-- C1 counterexample: at the reachable pair a = b = 2^62 (both valid
literals), `mul` yields `Integer 0` — the `i64` product overflows and wraps
(the debug profile panics instead), so the result is not
`Integer (2^62 · 2^62)` as the claim demands. -/
theorem c1_promotion_counterexample :
    Scalar.mul (.Integer (2 ^ 62)) (.Integer (2 ^ 62)) = .Integer 0 ∧
    (Scalar.Integer 0) ≠ .Integer (2 ^ 62 * 2 ^ 62) := by
  decide

/-- C1 (amended): Scalar numeric promotion for add, sub and mul is closed in
the tags: two Integer operands stay Integer, carrying the `i64` result —
equal to `a op b` whenever that value fits the signed 64-bit range, and the
two's-complement wrap of it on overflow (where the debug profile panics, so
the mathematical result is never produced in either build mode); any Float
operand makes the result Float, with the Integer operand widened to Float
before the operation. -/
theorem c1_scalar_promotion_amended :
    (∀ a b : Int,
      Scalar.add (.Integer a) (.Integer b) = .Integer (wrap64 (a + b)) ∧
      Scalar.sub (.Integer a) (.Integer b) = .Integer (wrap64 (a - b)) ∧
      Scalar.mul (.Integer a) (.Integer b) = .Integer (wrap64 (a * b))) ∧
    (∀ a b : Int, -(2 ^ 63) ≤ a + b → a + b < 2 ^ 63 →
      Scalar.add (.Integer a) (.Integer b) = .Integer (a + b)) ∧
    (∀ a b : Int, -(2 ^ 63) ≤ a - b → a - b < 2 ^ 63 →
      Scalar.sub (.Integer a) (.Integer b) = .Integer (a - b)) ∧
    (∀ a b : Int, -(2 ^ 63) ≤ a * b → a * b < 2 ^ 63 →
      Scalar.mul (.Integer a) (.Integer b) = .Integer (a * b)) ∧
    (∀ s t : Scalar, s.isFloat || t.isFloat →
      (s.add t).isFloat ∧ (s.sub t).isFloat ∧ (s.mul t).isFloat) ∧
    (∀ (a : Int) (f : Rat),
      Scalar.add (.Integer a) (.Float f) = .Float ((a : Rat) + f) ∧
      Scalar.add (.Float f) (.Integer a) = .Float (f + (a : Rat)) ∧
      Scalar.sub (.Integer a) (.Float f) = .Float ((a : Rat) - f) ∧
      Scalar.sub (.Float f) (.Integer a) = .Float (f - (a : Rat)) ∧
      Scalar.mul (.Integer a) (.Float f) = .Float ((a : Rat) * f) ∧
      Scalar.mul (.Float f) (.Integer a) = .Float (f * (a : Rat))) ∧
    (∀ f g : Rat,
      Scalar.add (.Float f) (.Float g) = .Float (f + g) ∧
      Scalar.sub (.Float f) (.Float g) = .Float (f - g) ∧
      Scalar.mul (.Float f) (.Float g) = .Float (f * g)) := by
  refine ⟨fun a b => ⟨rfl, rfl, rfl⟩, ?_, ?_, ?_, ?_,
    fun a f => ⟨rfl, rfl, rfl, rfl, rfl, rfl⟩, fun f g => ⟨rfl, rfl, rfl⟩⟩
  · intro a b h1 h2
    simp [Scalar.add, wrap64_eq_of_range _ h1 h2]
  · intro a b h1 h2
    simp [Scalar.sub, wrap64_eq_of_range _ h1 h2]
  · intro a b h1 h2
    simp [Scalar.mul, wrap64_eq_of_range _ h1 h2]
  · intro s t h
    cases s <;> cases t <;> simp_all [Scalar.add, Scalar.sub, Scalar.mul, Scalar.isFloat]

/-- Witness for the amended C1: an in-range Integer sum and a mixed pair. -/
theorem c1_scalar_promotion_amended_witness :
    (-(2 ^ 63) ≤ (2 : Int) + 3 ∧ ((2 : Int) + 3) < 2 ^ 63) ∧
    Scalar.add (.Integer 2) (.Integer 3) = .Integer (2 + 3) ∧
    ((Scalar.Float 2).isFloat || (Scalar.Integer 3).isFloat) = true ∧
    ((Scalar.Float 2).add (.Integer 3)).isFloat := by
  exact ⟨⟨by decide, by decide⟩,
    c1_scalar_promotion_amended.2.1 2 3 (by decide) (by decide),
    by decide,
    (c1_scalar_promotion_amended.2.2.2.2.1 (.Float 2) (.Integer 3) (by decide)).1⟩

/-- C2 counterexample: at `Integer 1 ÷ Integer 0` the claim demands the Float
division of the operands, but `Scalar::div` evaluates `a % b` with `b == 0`
and panics (modelled as `none`), producing no value at all. -/
theorem c2_div_counterexample :
    Scalar.div (.Integer 1) (.Integer 0) = none ∧
    Scalar.div (.Integer 1) (.Integer 0) ≠
      some (.Float ((Scalar.Integer 1).toRat / (Scalar.Integer 0).toRat)) := by
  decide

/-- C2 (amended): both-Integer division with a nonzero, exactly dividing
divisor other than the pair `(i64::MIN, -1)` yields `Integer (a / b)`;
both-Integer division with a nonzero but inexact divisor yields the Float
division; both-Integer division by zero, and `i64::MIN ÷ -1`, panic on the
remainder guard in every build mode (no result); any Float operand yields
the Float division of the two operands converted to Float. -/
theorem c2_div_amended :
    (∀ a b : Int, b ≠ 0 → ¬(a = -(2 ^ 63) ∧ b = -1) → a % b = 0 →
      Scalar.div (.Integer a) (.Integer b) = some (.Integer (a / b))) ∧
    (∀ a b : Int, b ≠ 0 → a % b ≠ 0 →
      Scalar.div (.Integer a) (.Integer b) = some (.Float ((a : Rat) / (b : Rat)))) ∧
    (∀ a : Int, Scalar.div (.Integer a) (.Integer 0) = none) ∧
    Scalar.div (.Integer (-(2 ^ 63))) (.Integer (-1)) = none ∧
    (∀ s t : Scalar, s.isFloat || t.isFloat →
      Scalar.div s t = some (.Float (s.toRat / t.toRat))) := by
  refine ⟨?_, ?_, ?_, by decide, ?_⟩
  · intro a b hb hmin hmod
    have hguard : ¬(b = 0 ∨ (a = -(2 ^ 63) ∧ b = -1)) := by
      push_neg
      exact ⟨hb, fun ha hb1 => hmin ⟨ha, hb1⟩⟩
    simp only [Scalar.div, if_neg hguard, if_pos hmod]
  · intro a b hb hmod
    have hmin : ¬(a = -(2 ^ 63) ∧ b = -1) := by
      rintro ⟨ha, hb1⟩
      apply hmod
      subst ha; subst hb1
      decide
    have hguard : ¬(b = 0 ∨ (a = -(2 ^ 63) ∧ b = -1)) := by
      push_neg
      exact ⟨hb, fun ha hb1 => hmin ⟨ha, hb1⟩⟩
    simp only [Scalar.div, if_neg hguard, if_neg hmod]
  · intro a
    simp [Scalar.div]
  · intro s t h
    cases s <;> cases t <;> simp_all [Scalar.div, Scalar.isFloat, Scalar.toRat]

/-- Witness for the amended C2 at the inexact pair `7 ÷ 2`. -/
theorem c2_div_amended_witness :
    ((2 : Int) ≠ 0 ∧ (7 : Int) % 2 ≠ 0) ∧
    Scalar.div (.Integer 7) (.Integer 2) = some (.Float ((7 : Rat) / (2 : Rat))) := by
  exact ⟨⟨by decide, by decide⟩, c2_div_amended.2.1 7 2 (by decide) (by decide)⟩

/-- C3: the sqrt built-in on a stack topped by a Scalar succeeds iff that
Scalar is ≥ 0, yielding its Float square root (on 9 it yields Float 3.0); a
negative Scalar fails with `NonRealResult` and a non-Scalar top value fails
with `TypeError`. -/
theorem c3_sqrt_builtin :
    (∀ (s : Scalar) (rest : Stack), 0 ≤ s.toRat →
      Stdlib.sqrt (Value.Scalar s :: rest) = (.ok (.Scalar (.Float (Rat.sqrt s.toRat))), rest)) ∧
    (∀ (s : Scalar) (rest : Stack), s.toRat < 0 →
      Stdlib.sqrt (Value.Scalar s :: rest) = (.error .NonRealResult, rest)) ∧
    (∀ (v : Value) (rest : Stack), v.isScalar = false →
      Stdlib.sqrt (v :: rest) = (.error .TypeError, rest)) ∧
    Stdlib.sqrt [.Scalar (.Integer 9)] = (.ok (.Scalar (.Float 3)), []) := by
  refine ⟨?_, ?_, ?_, by norm_num [Stdlib.sqrt, Scalar.toRat, Scalar.sqrt, rat_sqrt_nine]⟩
  · intro s rest h
    simp [Stdlib.sqrt, h, Scalar.sqrt_eq_toRat]
  · intro s rest h
    simp [Stdlib.sqrt, not_le.mpr h]
  · intro v rest h
    cases v <;> simp_all [Stdlib.sqrt, Value.isScalar]

/-- Witness for C3 at the stack `[Scalar 9]`. -/
theorem c3_sqrt_builtin_witness :
    0 ≤ (Scalar.Integer 9).toRat ∧
    Stdlib.sqrt [.Scalar (.Integer 9)] =
      (.ok (.Scalar (.Float (Rat.sqrt (Scalar.Integer 9).toRat))), []) := by
  exact ⟨by decide, c3_sqrt_builtin.1 (.Integer 9) [] (by decide)⟩

/-- C8 counterexample: on the stack `[Scalar 1, Scalar 2]` (2 pushed last),
`pnt2` yields `Point { x := 1, y := 2 }` — the operand popped first (last
pushed) is `y`, not `x` as the claim's operand order states, which would give
`Point { x := 2, y := 1 }`. -/
theorem c8_pnt2_counterexample :
    Stdlib.pnt2 [.Scalar (.Integer 2), .Scalar (.Integer 1)] =
      (.ok (.Point ⟨.Integer 1, .Integer 2⟩), []) ∧
    (Value.Point ⟨.Integer 1, .Integer 2⟩) ≠ (Value.Point ⟨.Integer 2, .Integer 1⟩) := by
  decide

/-- C8 (amended): `pnt2` pops exactly two operands; in stack order (last
pushed first) they are Scalar `y` and Scalar `x`, and the result is
`Point { x, y }`.  Fewer than two values fail with `MissingArgument` (the
single value present being consumed), a non-Scalar operand fails with
`TypeError` (both operands consumed). -/
theorem c8_pnt2_amended :
    (∀ (x y : Scalar) (rest : Stack),
      Stdlib.pnt2 (Value.Scalar y :: Value.Scalar x :: rest) = (.ok (.Point ⟨x, y⟩), rest)) ∧
    Stdlib.pnt2 [] = (.error .MissingArgument, []) ∧
    (∀ v : Value, Stdlib.pnt2 [v] = (.error .MissingArgument, [])) ∧
    (∀ (a b : Value) (rest : Stack), a.isScalar = false ∨ b.isScalar = false →
      Stdlib.pnt2 (b :: a :: rest) = (.error .TypeError, rest)) := by
  refine ⟨fun x y rest => rfl, by decide, fun v => rfl, ?_⟩
  intro a b rest h
  cases a <;> cases b <;> simp_all [Stdlib.pnt2, Value.isScalar]

/-- Witness for the amended C8: a non-Scalar operand under a Scalar top. -/
theorem c8_pnt2_amended_witness :
    ((Value.Void).isScalar = false ∨ (Value.Scalar (.Integer 2)).isScalar = false) ∧
    Stdlib.pnt2 [.Scalar (.Integer 2), .Void] = (.error .TypeError, []) := by
  exact ⟨Or.inl (by decide), c8_pnt2_amended.2.2.2 .Void (.Scalar (.Integer 2)) [] (Or.inl (by decide))⟩

/-- C4: in `parse_instruction`, the token following each parsed expression
determines its `draw_result`: `Pipe` → false, `Concat`/`Newline`/end-of-input
→ true, any other token is an `UnexpectedToken` error at that token's
position, and `Newline`/end-of-input also terminate the instruction; in
particular "42 => let x" parses to one instruction holding the literal with
`draw_result = false` and the initializer-less let-binding with
`draw_result = true`. -/
theorem c4_draw_result_separators :
    (∀ (fuel : Nat) (t : Tokenizer) (acc : List Expression) (content : ExpressionContent)
        (t1 t2 : Tokenizer) (tok : Token),
      parseExpr fuel t = .ok (some content, t1) →
      readToken t1 = .ok (tok, t2) →
      (tok.payload = .Pipe →
        parseInstrLoop (fuel + 1) t acc =
          parseInstrLoop fuel t2 (acc ++ [⟨content, false, t.pos⟩])) ∧
      (tok.payload = .Concat →
        parseInstrLoop (fuel + 1) t acc =
          parseInstrLoop fuel t2 (acc ++ [⟨content, true, t.pos⟩])) ∧
      ((tok.payload = .Newline ∨ tok.payload = .EOF) →
        parseInstrLoop (fuel + 1) t acc = .ok (acc ++ [⟨content, true, t.pos⟩], t2)) ∧
      (tok.payload ≠ .Pipe → tok.payload ≠ .Concat → tok.payload ≠ .Newline →
          tok.payload ≠ .EOF →
        parseInstrLoop (fuel + 1) t acc =
          .error ⟨tok.position, .UnexpectedToken tok.payload⟩)) ∧
    parseInstruction 16 (Tokenizer.mk0 "42 => let x") =
      .ok (some ⟨[⟨.Literal (.Number (.Integer 42)), false, ⟨0, 0⟩⟩,
                  ⟨.LetB "x" none, true, ⟨0, 6⟩⟩]⟩, ⟨[], ⟨0, 11⟩⟩) := by
  refine ⟨?_, rfl⟩
  intro fuel t acc content t1 t2 tok h1 h2
  have hstep : parseInstrLoop (fuel + 1) t acc
      = instrLoopBody (parseExpr fuel) (parseInstrLoop fuel) t acc := rfl
  refine ⟨fun hp => ?_, fun hc => ?_, fun hne => ?_, fun o1 o2 o3 o4 => ?_⟩
  · rw [hstep]; simp only [instrLoopBody, h1, h2, hp]
  · rw [hstep]; simp only [instrLoopBody, h1, h2, hc]
  · rw [hstep]
    rcases hne with hne | hne <;> simp only [instrLoopBody, h1, h2, hne]
  · rw [hstep]
    simp only [instrLoopBody, h1, h2]

/-- Witness for C4: the first step of parsing "42 => let x", whose literal is
followed by a Pipe token. -/
theorem c4_draw_result_separators_witness :
    parseExpr 8 (Tokenizer.mk0 "42 => let x") =
      .ok (some (.Literal (.Number (.Integer 42))),
        ⟨[' ', '=', '>', ' ', 'l', 'e', 't', ' ', 'x'], ⟨0, 2⟩⟩) ∧
    readToken ⟨[' ', '=', '>', ' ', 'l', 'e', 't', ' ', 'x'], ⟨0, 2⟩⟩ =
      .ok (⟨.Pipe, ⟨0, 6⟩⟩, ⟨['l', 'e', 't', ' ', 'x'], ⟨0, 6⟩⟩) ∧
    parseInstrLoop 9 (Tokenizer.mk0 "42 => let x") [] =
      parseInstrLoop 8 ⟨['l', 'e', 't', ' ', 'x'], ⟨0, 6⟩⟩
        [⟨.Literal (.Number (.Integer 42)), false, ⟨0, 0⟩⟩] := by
  exact ⟨rfl, rfl,
    ((c4_draw_result_separators.1 8 (Tokenizer.mk0 "42 => let x") []
      (.Literal (.Number (.Integer 42)))
      ⟨[' ', '=', '>', ' ', 'l', 'e', 't', ' ', 'x'], ⟨0, 2⟩⟩
      ⟨['l', 'e', 't', ' ', 'x'], ⟨0, 6⟩⟩ ⟨.Pipe, ⟨0, 6⟩⟩ rfl rfl).1 rfl)⟩

/-- C10 counterexample: reading the Pipe token of "=>1" — the token's
characters are "=>", so the position immediately after its final character is
column 2, but the returned token carries column 3 (the shared post-`match`
`self.advance()` also consumed the '1'). -/
theorem c10_token_position_counterexample :
    readToken (Tokenizer.mk0 "=>1") = .ok (⟨.Pipe, ⟨0, 3⟩⟩, ⟨[], ⟨0, 3⟩⟩) ∧
    (⟨0, 3⟩ : Position) ≠ ⟨0, 2⟩ := by
  decide

/-- C10 (amended): every Token the tokenizer returns carries the tokenizer's
position after reading it.  For `Name`, `Variable`, number-literal, `Concat`,
paren and plain-newline tokens that is the position immediately after the
token's final character — in particular "func1" from the start of the input
yields a Name token at line 0, column 5 — but `Pipe`, CRLF-`Newline` and
`VoidNewline` tokens also consume the character following the token when one
is present, as the Pipe of "=>1" at column 3 shows. -/
theorem c10_token_position_amended :
    (∀ (t : Tokenizer) (tok : Token) (t1 : Tokenizer),
      readToken t = .ok (tok, t1) → tok.position = t1.pos) ∧
    readToken (Tokenizer.mk0 "func1") = .ok (⟨.Name "func1", ⟨0, 5⟩⟩, ⟨[], ⟨0, 5⟩⟩) ∧
    readToken (Tokenizer.mk0 "=>1") = .ok (⟨.Pipe, ⟨0, 3⟩⟩, ⟨[], ⟨0, 3⟩⟩) := by
  exact ⟨fun t tok t1 h => readTokenAux_pos t.chars t.pos h, by decide, by decide⟩

/-- Witness for the amended C10 at the single-token input "42". -/
theorem c10_token_position_amended_witness :
    readToken (Tokenizer.mk0 "42") = .ok (⟨.LitNumber (.Integer 42), ⟨0, 2⟩⟩, ⟨[], ⟨0, 2⟩⟩) ∧
    (Token.mk (.LitNumber (.Integer 42)) ⟨0, 2⟩).position = (Tokenizer.mk [] ⟨0, 2⟩).pos := by
  exact ⟨by decide,
    c10_token_position_amended.1 (Tokenizer.mk0 "42")
      ⟨.LitNumber (.Integer 42), ⟨0, 2⟩⟩ ⟨[], ⟨0, 2⟩⟩ (by decide)⟩

/-- What every evaluator step preserves about the mutable runtime state: the
function table is unchanged (it is populated once at construction) and no
variable binding is ever removed (only added or overwritten). -/
def StateMono (st st1 : RTState) : Prop :=
  st1.functions = st.functions ∧
  ∀ n v, st.vars n = some v → ∃ w, st1.vars n = some w

theorem StateMono.refl (st : RTState) : StateMono st st :=
  ⟨rfl, fun _ v h => ⟨v, h⟩⟩

theorem StateMono.trans {a b c : RTState} (h1 : StateMono a b) (h2 : StateMono b c) :
    StateMono a c := by
  refine ⟨h2.1.trans h1.1, fun n v h => ?_⟩
  obtain ⟨w, hw⟩ := h1.2 n v h
  exact h2.2 n w hw

/-- Inserting a binding preserves `StateMono`. -/
theorem StateMono.insert {a b : RTState} (h : StateMono a b) (name : String) (v : Value)
    (c : RTState) (hvars : c.vars = b.vars.insert name v) (hfns : c.functions = b.functions) :
    StateMono a c := by
  refine ⟨hfns.trans h.1, fun n w hw => ?_⟩
  rw [hvars]
  unfold Env.insert
  by_cases hn : n = name
  · exact ⟨v, by simp [hn]⟩
  · obtain ⟨u, hu⟩ := h.2 n w hw
    exact ⟨u, by simp [hn, hu]⟩

/-- Every evaluator function, at every fuel, satisfies `StateMono` between
its input and output states. -/
theorem evalFuel_mono (fuel : Nat) :
    (∀ st e, StateMono st ((evalFuel fuel).expr st e).2) ∧
    (∀ st a, StateMono st ((evalFuel fuel).arg st a).2) ∧
    (∀ st args, StateMono st ((evalFuel fuel).pushArgs st args).2) := by
  induction fuel with
  | zero => exact ⟨fun st _ => StateMono.refl st, fun st _ => StateMono.refl st,
      fun st _ => StateMono.refl st⟩
  | succ n ih =>
    obtain ⟨ihe, iha, ihp⟩ := ih
    refine ⟨?_, ?_, ?_⟩
    · intro st e
      show StateMono st ((execExprBody (evalFuel n).arg (evalFuel n).pushArgs st e)).2
      cases e with
      | Literal l =>
        cases l with
        | Number number =>
          simp only [execExprBody]
          cases htry : Scalar.tryFromNumber number <;> simp only [htry] <;>
            exact StateMono.refl st
      | Variable name =>
        simp only [execExprBody]
        cases hv : st.vars name <;> simp only [hv] <;> exact StateMono.refl st
      | FunctionCall name args =>
        simp only [execExprBody]
        rcases hp : (evalFuel n).pushArgs st args with ⟨r, st1⟩
        have hm1 : StateMono st st1 := by
          have h := ihp st args
          rw [hp] at h
          exact h
        cases r with
        | error err => simpa [hp] using hm1
        | ok u =>
          cases hf : st1.functions name with
          | none => simpa [hp, hf] using hm1
          | some f =>
            rcases hcall : f st1.stack with ⟨r2, stack1⟩
            have hm2 : StateMono st1 { st1 with stack := stack1 } :=
              ⟨rfl, fun _ v h => ⟨v, h⟩⟩
            simpa [hp, hf, hcall] using hm1.trans hm2
      | LetB name init =>
        simp only [execExprBody]
        cases init with
        | some init =>
          rcases ha : (evalFuel n).arg st init with ⟨r, st1⟩
          have hm1 : StateMono st st1 := by
            have h := iha st init
            rw [ha] at h
            exact h
          cases r with
          | error err => simpa [ha] using hm1
          | ok v =>
            simp only [ha]
            exact hm1.insert name v _ rfl rfl
        | none =>
          cases hpop : st.stack.pop with
          | error err => simp only [hpop]; exact StateMono.refl st
          | ok vs =>
            rcases vs with ⟨v, stack1⟩
            simp only [hpop]
            exact (StateMono.refl st).insert name v _ rfl rfl
      | Screen a1 a2 =>
        simp only [execExprBody]
        rcases h1 : (evalFuel n).arg st a1 with ⟨r1, st1⟩
        have hm1 : StateMono st st1 := by
          have h := iha st a1
          rw [h1] at h
          exact h
        cases r1 with
        | error err => simpa [h1] using hm1
        | ok v1 =>
          rcases h2 : (evalFuel n).arg st1 a2 with ⟨r2, st2⟩
          have hm2 : StateMono st1 st2 := by
            have h := iha st1 a2
            rw [h2] at h
            exact h
          cases r2 with
          | error err => simpa [h1, h2] using hm1.trans hm2
          | ok v2 =>
            have hm3 : StateMono st st2 := hm1.trans hm2
            cases v1 <;> cases v2 <;>
              simpa [h1, h2] using hm3.trans (⟨rfl, fun _ v h => ⟨v, h⟩⟩ : StateMono st2 _)
    · intro st a
      show StateMono st ((execArgBody (evalFuel n).expr st a)).2
      cases a with
      | Variable name =>
        simp only [execArgBody]
        cases hv : st.vars name <;> simp only [hv] <;> exact StateMono.refl st
      | Literal l =>
        cases l with
        | Number number =>
          simp only [execArgBody]
          cases htry : Scalar.tryFromNumber number <;> simp only [htry] <;>
            exact StateMono.refl st
      | Parenthesized content => exact ihe st content
    · intro st args
      show StateMono st ((pushArgsBody (evalFuel n).arg (evalFuel n).pushArgs st args)).2
      cases args with
      | nil => exact StateMono.refl st
      | cons a rest =>
        simp only [pushArgsBody]
        rcases ha : (evalFuel n).arg st a with ⟨r, st1⟩
        have hm1 : StateMono st st1 := by
          have h := iha st a
          rw [ha] at h
          exact h
        cases r with
        | error err => simpa [ha] using hm1
        | ok v =>
          have hm2 : StateMono st1 { st1 with stack := st1.stack.push v } :=
            ⟨rfl, fun _ w h => ⟨w, h⟩⟩
          have hm3 := ihp { st1 with stack := st1.stack.push v } rest
          simpa [ha] using (hm1.trans hm2).trans hm3

/-- `StateMono` for `execute_expression`, at every fuel. -/
theorem executeExpression_mono (fuel : Nat) (st : RTState) (e : ExpressionContent) :
    StateMono st (executeExpression fuel st e).2 :=
  (evalFuel_mono fuel).1 st e

/-- `StateMono` for `execute_argument`, at every fuel. -/
theorem executeArgument_mono (fuel : Nat) (st : RTState) (a : Argument) :
    StateMono st (executeArgument fuel st a).2 :=
  (evalFuel_mono fuel).2.1 st a

/-- `StateMono` for the argument-pushing loop, at every fuel. -/
theorem pushArguments_mono (fuel : Nat) (st : RTState) (args : List Argument) :
    StateMono st (pushArguments fuel st args).2 :=
  (evalFuel_mono fuel).2.2 st args

/-- `StateMono` for the expression loop of `execute_instruction`. -/
theorem execInstrLoop_mono (fuel : Nat) (exprs : List Expression) :
    ∀ st : RTState, StateMono st (execInstrLoop fuel st exprs).2 := by
  induction exprs with
  | nil => intro st; exact StateMono.refl st
  | cons e rest ih =>
    intro st
    rcases hx : executeExpression fuel st e.content with ⟨r, st1⟩
    have hm1 : StateMono st st1 := by
      have h := executeExpression_mono fuel st e.content
      rw [hx] at h
      exact h
    cases r with
    | error err => simpa [execInstrLoop, hx] using hm1
    | ok v =>
      have hm2 : StateMono st { st1 with stack := st1.stack.push v } :=
        hm1.trans ⟨rfl, fun _ w h => ⟨w, h⟩⟩
      by_cases hd : e.draw_result
      · cases hcmd : valueToDrawCommand v with
        | none =>
          simpa [execInstrLoop, hx, hd, hcmd] using
            hm2.trans (ih { st1 with stack := st1.stack.push v })
        | some cmd =>
          have hm3 : StateMono { st1 with stack := st1.stack.push v }
              { st1 with stack := st1.stack.push v, draws := st1.draws ++ [cmd] } :=
            ⟨rfl, fun _ w h => ⟨w, h⟩⟩
          simpa [execInstrLoop, hx, hd, hcmd] using
            (hm2.trans hm3).trans
              (ih { st1 with stack := st1.stack.push v, draws := st1.draws ++ [cmd] })
      · simp only [Bool.not_eq_true] at hd
        simpa [execInstrLoop, hx, hd] using
          hm2.trans (ih { st1 with stack := st1.stack.push v })

/-- A successfully executed instruction leaves the stack empty. -/
theorem executeInstruction_clears (fuel : Nat) (st : RTState) (i : Instruction)
    (st1 : RTState) (h : executeInstruction fuel st i = (.ok (), st1)) : st1.stack = [] := by
  unfold executeInstruction at h
  rcases hl : execInstrLoop fuel st i.expressions with ⟨r, st2⟩
  rw [hl] at h
  cases r with
  | error err => exact Except.noConfusion (congrArg Prod.fst h)
  | ok u =>
    have h2 := congrArg Prod.snd h
    simp only at h2
    rw [← h2]

/-- `StateMono` for `execute_instruction`. -/
theorem executeInstruction_mono (fuel : Nat) (st : RTState) (i : Instruction) :
    StateMono st (executeInstruction fuel st i).2 := by
  unfold executeInstruction
  rcases hl : execInstrLoop fuel st i.expressions with ⟨r, st2⟩
  have hm : StateMono st st2 := by
    have h := execInstrLoop_mono fuel i.expressions st
    rw [hl] at h
    exact h
  cases r with
  | error err => simpa using hm
  | ok u => simpa using hm.trans ⟨rfl, fun _ w h => ⟨w, h⟩⟩

/-- `StateMono` for `execute`. -/
theorem execute_mono (fuel : Nat) (instrs : List Instruction) :
    ∀ st : RTState, StateMono st (execute fuel st instrs).2 := by
  induction instrs with
  | nil => intro st; exact StateMono.refl st
  | cons i rest ih =>
    intro st
    rcases hi : executeInstruction fuel st i with ⟨r, st1⟩
    have hm : StateMono st st1 := by
      have h := executeInstruction_mono fuel st i
      rw [hi] at h
      exact h
    cases r with
    | error err => simpa [execute, hi] using hm
    | ok u => simpa [execute, hi] using hm.trans (ih st1)

/-- C5: instruction isolation — the stack is empty at the start of every
instruction of any run begun with an empty stack (it is cleared after each
instruction completes, whatever is left on it), while the variable
environment is never cleared: every binding present before an instruction
(in particular one made by an earlier instruction) is still bound afterwards,
both across one instruction and across a whole run. -/
theorem c5_instruction_isolation :
    (∀ (fuel : Nat) (st : RTState) (instrs : List Instruction),
      st.stack = [] → ∀ s ∈ execStarts fuel st instrs, s.stack = []) ∧
    (∀ (fuel : Nat) (st : RTState) (i : Instruction) (st1 : RTState),
      executeInstruction fuel st i = (.ok (), st1) → st1.stack = []) ∧
    (∀ (fuel : Nat) (st : RTState) (i : Instruction) (r : Except RTError Unit) (st1 : RTState),
      executeInstruction fuel st i = (r, st1) →
      ∀ n v, st.vars n = some v → ∃ w, st1.vars n = some w) ∧
    (∀ (fuel : Nat) (st : RTState) (instrs : List Instruction) (r : Except RTError Unit)
        (st1 : RTState),
      execute fuel st instrs = (r, st1) →
      ∀ n v, st.vars n = some v → ∃ w, st1.vars n = some w) := by
  refine ⟨?_, executeInstruction_clears, ?_, ?_⟩
  · intro fuel st instrs
    induction instrs generalizing st with
    | nil => intro _ s hs; simp [execStarts] at hs
    | cons i rest ih =>
      intro hst s hs
      simp only [execStarts, List.mem_cons] at hs
      rcases hs with hs | hs
      · rw [hs]; exact hst
      · rcases hi : executeInstruction fuel st i with ⟨r, st1⟩
        rw [hi] at hs
        cases r with
        | error err => simp at hs
        | ok u =>
          exact ih st1 (executeInstruction_clears fuel st i st1 (by rw [hi])) s hs
  · intro fuel st i r st1 h
    have hm := executeInstruction_mono fuel st i
    rw [h] at hm
    exact hm.2
  · intro fuel st instrs r st1 h
    have hm := execute_mono fuel instrs st
    rw [h] at hm
    exact hm.2

/-- Witness for C5: a two-instruction run binding a variable in the first
instruction and leaving a value on the stack. -/
theorem c5_instruction_isolation_witness :
    executeInstruction 9 initState
        ⟨[⟨.LetB "a" (some (.Literal (.Number (.Integer 7)))), false, ⟨0, 0⟩⟩]⟩ =
      (.ok (), { initState with
        vars := (Env.empty.insert "a" (.Scalar (.Integer 7))), stack := [] }) ∧
    ({ initState with
        vars := (Env.empty.insert "a" (.Scalar (.Integer 7))), stack := [] } : RTState).stack
      = [] := by
  refine ⟨rfl, ?_⟩
  exact c5_instruction_isolation.2.1 9 initState
    ⟨[⟨.LetB "a" (some (.Literal (.Number (.Integer 7)))), false, ⟨0, 0⟩⟩]⟩ _ rfl

/-- C6: a `LetBinding` with an initializer stores the initializer's value in
the environment under the given name (overwriting any prior binding) and
yields that value; a subsequent `VariableReference` with no intervening write
returns exactly that value.  A `LetBinding` without an initializer pops the
value to bind off the stack, failing with `StackUnderflow` when the stack is
empty. -/
theorem c6_let_roundtrip :
    (∀ (fuel : Nat) (st : RTState) (name : String) (init : Argument) (v : Value) (st1 : RTState),
      executeArgument fuel st init = (.ok v, st1) →
      executeExpression (fuel + 1) st (.LetB name (some init)) =
          (.ok v, { st1 with vars := st1.vars.insert name v }) ∧
        ({ st1 with vars := st1.vars.insert name v } : RTState).vars name = some v) ∧
    (∀ (fuel : Nat) (st : RTState) (name : String) (v : Value),
      st.vars name = some v →
      executeExpression (fuel + 1) st (.Variable name) = (.ok v, st)) ∧
    (∀ (fuel : Nat) (st : RTState) (name : String) (w : Value) (rest : Stack),
      st.stack = w :: rest →
      executeExpression (fuel + 1) st (.LetB name none) =
        (.ok w, { st with stack := rest, vars := st.vars.insert name w })) ∧
    (∀ (fuel : Nat) (st : RTState) (name : String),
      st.stack = [] →
      executeExpression (fuel + 1) st (.LetB name none) = (.error .StackUnderflow, st)) := by
  refine ⟨?_, ?_, ?_, ?_⟩
  · intro fuel st name init v st1 h
    constructor
    · show execExprBody (evalFuel fuel).arg (evalFuel fuel).pushArgs st (.LetB name (some init))
        = (.ok v, { st1 with vars := st1.vars.insert name v })
      simp only [execExprBody]
      rw [show (evalFuel fuel).arg st init = executeArgument fuel st init from rfl, h]
    · simp [Env.insert]
  · intro fuel st name v h
    show execExprBody (evalFuel fuel).arg (evalFuel fuel).pushArgs st (.Variable name)
      = (.ok v, st)
    simp only [execExprBody, h]
  · intro fuel st name w rest h
    show execExprBody (evalFuel fuel).arg (evalFuel fuel).pushArgs st (.LetB name none)
      = (.ok w, { st with stack := rest, vars := st.vars.insert name w })
    simp only [execExprBody, Stack.pop, h]
  · intro fuel st name h
    show execExprBody (evalFuel fuel).arg (evalFuel fuel).pushArgs st (.LetB name none)
      = (.error .StackUnderflow, st)
    simp only [execExprBody, Stack.pop, h]

/-- Witness for C6: binding 5 to x and reading it back. -/
theorem c6_let_roundtrip_witness :
    executeArgument 8 initState (.Literal (.Number (.Integer 5)))
      = (.ok (.Scalar (.Integer 5)), initState) ∧
    executeExpression 9 initState (.LetB "x" (some (.Literal (.Number (.Integer 5)))))
      = (.ok (.Scalar (.Integer 5)),
        { initState with vars := initState.vars.insert "x" (.Scalar (.Integer 5)) }) ∧
    ({ initState with vars := initState.vars.insert "x" (.Scalar (.Integer 5)) } : RTState).vars "x"
      = some (.Scalar (.Integer 5)) := by
  have h := c6_let_roundtrip.1 8 initState "x" (.Literal (.Number (.Integer 5)))
    (.Scalar (.Integer 5)) initState rfl
  exact ⟨rfl, h.1, h.2⟩

/-- C9: a `FunctionCall` whose name is not in the function table fails with
`FunctionNotFound` only after all its arguments have been evaluated and their
non-Void values pushed; the pushed values and any environment mutation done
by a parenthesized argument survive the error (and an argument failure
pre-empts the lookup, so its error propagates instead). -/
theorem c9_function_not_found :
    (∀ (fuel : Nat) (st : RTState) (name : String) (args : List Argument) (st1 : RTState),
      pushArguments fuel st args = (.ok (), st1) →
      st.functions name = none →
      executeExpression (fuel + 1) st (.FunctionCall name args) =
        (.error (.FunctionNotFound name), st1)) ∧
    (∀ (fuel : Nat) (st : RTState) (name : String) (args : List Argument) (e : RTError)
        (st1 : RTState),
      pushArguments fuel st args = (.error e, st1) →
      executeExpression (fuel + 1) st (.FunctionCall name args) = (.error e, st1)) ∧
    (executeExpression 9 initState
        (.FunctionCall "nope"
          [.Parenthesized (.LetB "x" (some (.Literal (.Number (.Integer 5)))))])).1
      = .error (.FunctionNotFound "nope") ∧
    (executeExpression 9 initState
        (.FunctionCall "nope"
          [.Parenthesized (.LetB "x" (some (.Literal (.Number (.Integer 5)))))])).2.stack
      = [.Scalar (.Integer 5)] ∧
    (executeExpression 9 initState
        (.FunctionCall "nope"
          [.Parenthesized (.LetB "x" (some (.Literal (.Number (.Integer 5)))))])).2.vars "x"
      = some (.Scalar (.Integer 5)) := by
  refine ⟨?_, ?_, by decide, by decide, by decide⟩
  · intro fuel st name args st1 hp hf
    have hfns : st1.functions = st.functions := by
      have h := pushArguments_mono fuel st args
      rw [hp] at h
      exact h.1
    show execExprBody (evalFuel fuel).arg (evalFuel fuel).pushArgs st (.FunctionCall name args)
      = (.error (.FunctionNotFound name), st1)
    simp only [execExprBody]
    rw [show (evalFuel fuel).pushArgs st args = pushArguments fuel st args from rfl, hp]
    simp only [hfns, hf]
  · intro fuel st name args e st1 hp
    show execExprBody (evalFuel fuel).arg (evalFuel fuel).pushArgs st (.FunctionCall name args)
      = (.error e, st1)
    simp only [execExprBody]
    rw [show (evalFuel fuel).pushArgs st args = pushArguments fuel st args from rfl, hp]

/-- Witness for C9: calling the unknown function "nope" with one literal
argument leaves the pushed value on the stack. -/
theorem c9_function_not_found_witness :
    pushArguments 8 initState [.Literal (.Number (.Integer 5))]
      = (.ok (), { initState with stack := [.Scalar (.Integer 5)] }) ∧
    initState.functions "nope" = none ∧
    executeExpression 9 initState (.FunctionCall "nope" [.Literal (.Number (.Integer 5))])
      = (.error (.FunctionNotFound "nope"),
        { initState with stack := [.Scalar (.Integer 5)] }) := by
  refine ⟨rfl, rfl, ?_⟩
  exact c9_function_not_found.1 8 initState "nope" [.Literal (.Number (.Integer 5))]
    { initState with stack := [.Scalar (.Integer 5)] } rfl rfl

/-- C7 counterexample: an instruction whose only expression is a
`ScreenResize` with `draw_result = false` still forwards a draw command (the
`Resize`) to the sink during execution, so commands are not forwarded only
for expressions with `draw_result = true`. -/
theorem c7_draw_counterexample :
    (executeInstruction 9 initState
      ⟨[⟨.Screen (.Literal (.Number (.Integer 1))) (.Literal (.Number (.Integer 2))),
          false, ⟨0, 0⟩⟩]⟩).1 = .ok () ∧
    (executeInstruction 9 initState
      ⟨[⟨.Screen (.Literal (.Number (.Integer 1))) (.Literal (.Number (.Integer 2))),
          false, ⟨0, 0⟩⟩]⟩).2.draws = [.Resize 1 2] := by
  exact ⟨by decide, by decide⟩

/-- C7 (amended): the draw-result conversion forwards a command only for
expressions whose `draw_result` flag is true, and only a `Line` value
converts to a command (endpoints origin and origin plus direction) — `Void`,
`Scalar`, `Point` and `Vector` values convert to no command and are silently
dropped, never an error; independently of the flag, a `ScreenResize`
expression forwards a `Resize` command during its own evaluation. -/
theorem c7_draw_conversion_amended :
    (∀ (p : Point) (v : Vector), valueToDrawCommand (.Line p v) =
      some (.Line (p.x.toRat, p.y.toRat) ((p.x.add v.x).toRat, (p.y.add v.y).toRat))) ∧
    valueToDrawCommand .Void = none ∧
    (∀ s, valueToDrawCommand (.Scalar s) = none) ∧
    (∀ p, valueToDrawCommand (.Point p) = none) ∧
    (∀ v, valueToDrawCommand (.Vector v) = none) ∧
    (∀ (fuel : Nat) (st : RTState) (e : Expression) (rest : List Expression) (v : Value)
        (st1 : RTState),
      executeExpression fuel st e.content = (.ok v, st1) →
      e.draw_result = false →
      execInstrLoop fuel st (e :: rest) =
        execInstrLoop fuel { st1 with stack := st1.stack.push v } rest) ∧
    (∀ (fuel : Nat) (st : RTState) (e : Expression) (rest : List Expression) (v : Value)
        (st1 : RTState),
      executeExpression fuel st e.content = (.ok v, st1) →
      e.draw_result = true → valueToDrawCommand v = none →
      execInstrLoop fuel st (e :: rest) =
        execInstrLoop fuel { st1 with stack := st1.stack.push v } rest) ∧
    (∀ (fuel : Nat) (st : RTState) (e : Expression) (rest : List Expression) (v : Value)
        (st1 : RTState) (cmd : DrawCommand),
      executeExpression fuel st e.content = (.ok v, st1) →
      e.draw_result = true → valueToDrawCommand v = some cmd →
      execInstrLoop fuel st (e :: rest) =
        execInstrLoop fuel
          { st1 with stack := st1.stack.push v, draws := st1.draws ++ [cmd] } rest) ∧
    (∀ (fuel : Nat) (st : RTState) (a1 a2 : Argument) (x y : Scalar) (st1 st2 : RTState),
      executeArgument fuel st a1 = (.ok (.Scalar x), st1) →
      executeArgument fuel st1 a2 = (.ok (.Scalar y), st2) →
      executeExpression (fuel + 1) st (.Screen a1 a2) =
        (.ok .Void, { st2 with draws := st2.draws ++ [.Resize x.toRat y.toRat] })) := by
  refine ⟨fun p v => rfl, rfl, fun s => rfl, fun p => rfl, fun v => rfl, ?_, ?_, ?_, ?_⟩
  · intro fuel st e rest v st1 hx hd
    simp [execInstrLoop, hx, hd]
  · intro fuel st e rest v st1 hx hd hcmd
    simp [execInstrLoop, hx, hd, hcmd]
  · intro fuel st e rest v st1 cmd hx hd hcmd
    simp [execInstrLoop, hx, hd, hcmd]
  · intro fuel st a1 a2 x y st1 st2 h1 h2
    show execExprBody (evalFuel fuel).arg (evalFuel fuel).pushArgs st (.Screen a1 a2)
      = (.ok .Void, { st2 with draws := st2.draws ++ [.Resize x.toRat y.toRat] })
    replace h1 : (evalFuel fuel).arg st a1 = (.ok (.Scalar x), st1) := h1
    replace h2 : (evalFuel fuel).arg st1 a2 = (.ok (.Scalar y), st2) := h2
    simp only [execExprBody, h1, h2]

/-- Witness for C7 at a literal expression with `draw_result = false`. -/
theorem c7_draw_conversion_amended_witness :
    executeExpression 5 initState (.Literal (.Number (.Integer 1)))
      = (.ok (.Scalar (.Integer 1)), initState) ∧
    execInstrLoop 5 initState [⟨.Literal (.Number (.Integer 1)), false, ⟨0, 0⟩⟩] =
      execInstrLoop 5 { initState with stack := [.Scalar (.Integer 1)] } [] := by
  refine ⟨rfl, ?_⟩
  exact c7_draw_conversion_amended.2.2.2.2.2.1 5 initState
    ⟨.Literal (.Number (.Integer 1)), false, ⟨0, 0⟩⟩ [] (.Scalar (.Integer 1)) initState rfl rfl
